import Mathlib

/-
Verification of the gmap concurrent-safe hash map
(src/g/container/gmap/gmap.go) against its specification.

The embedding is sequential: the rwmutex only serializes operations, so in
a shallow embedding every public operation is a pure function on the map
state and the concurrent-safety flag is erased.  Dynamic (interface) values
are modelled by the inductive type GoVal; the backing Go map is modelled by
an association list holding at most one binding per key (the representation
invariant nodupKeys below), with lookup by Go equality.
-/

set_option autoImplicit false

namespace Gmap

/-- Dynamic (interface) values: the untyped nil, integers, and nullary
functions returning a dynamic value (the Go type func() interface, which
doSetWithLockCheck treats specially).  Other dynamic base types behave
like integers for every operation studied here. -/
inductive GoVal where
  | nil : GoVal
  | int : Int → GoVal
  | fn : (Unit → GoVal) → GoVal

/-- Go equality on dynamic values, as used for map-key lookup.  Function
values are not comparable in Go (using one as a map key panics at run
time); the embedding makes them compare unequal to everything, themselves
included, so bindings under function keys are unreachable. -/
def goEq : GoVal → GoVal → Bool
  | .nil, .nil => true
  | .int a, .int b => decide (a = b)
  | _, _ => false

/-- Whether a dynamic value is of a Go comparable type, hence a valid map
key. -/
def GoVal.comparable : GoVal → Bool
  | .fn _ => false
  | _ => true

/-- Whether a dynamic value is a nullary function. -/
def GoVal.isFn : GoVal → Bool
  | .fn _ => true
  | _ => false

/-- The backing store data, as an association list. -/
abbrev GoMapData := List (GoVal × GoVal)

/-- Lookup of data[key]: the value of the first binding whose key is
Go-equal to key. -/
def findVal : GoMapData → GoVal → Option GoVal
  | [], _ => none
  | (k', v) :: rest, k => if goEq k' k then some v else findVal rest k

/-- Assignment data[key] = val: replace the binding of an existing equal
key (keeping the stored key, as Go maps do), else append a new binding. -/
def setData : GoMapData → GoVal → GoVal → GoMapData
  | [], k, v => [(k, v)]
  | (k', v') :: rest, k, v =>
      if goEq k' k then (k', v) :: rest else (k', v') :: setData rest k v

/-- delete(data, key): drop every binding with a Go-equal key; under the
representation invariant at most one such binding exists. -/
def removeData : GoMapData → GoVal → GoMapData
  | [], _ => []
  | (k', v') :: rest, k =>
      if goEq k' k then removeData rest k else (k', v') :: removeData rest k

/-- Loop for k, v := range l { data[k] = v }. -/
def setAllData : GoMapData → List (GoVal × GoVal) → GoMapData
  | d, [] => d
  | d, (k, v) :: rest => setAllData (setData d k v) rest

/-- Loop for _, k := range keys { delete(data, k) }. -/
def removesData : GoMapData → List GoVal → GoMapData
  | d, [] => d
  | d, k :: rest => removesData (removeData d k) rest

/-- Loop of Flip: for k, v := range old { n[v] = k }, with n the
accumulator. -/
def flipLoop : GoMapData → GoMapData → GoMapData
  | n, [] => n
  | n, (k, v) :: rest => flipLoop (setData n v k) rest

/-- Key-presence test on the raw data. -/
def containsData (d : GoMapData) (k : GoVal) : Bool :=
  (findVal d k).isSome

/-- The hash map.  The source pairs the data with an rwmutex; the lock
only serializes the operations, so it is erased in this sequential
embedding. -/
structure Map where
  data : GoMapData

/-- New returns an empty hash map. -/
def New : Map := ⟨[]⟩

/-- NewFrom returns a hash map adopting the given data. -/
def NewFrom (data : GoMapData) : Map := ⟨data⟩

/-- Loop of NewFromArray over the keys, with i the running index. -/
def newFromArrayLoop (values : List GoVal) : List GoVal → Nat → GoMapData → GoMapData
  | [], _, d => d
  | k :: ks, i, d =>
      newFromArrayLoop values ks (i + 1)
        (if i < values.length then setData d k (values.getD i .nil)
         else setData d k .nil)

/-- NewFromArray zips keys with values; keys beyond the length of values
are bound to the untyped nil. -/
def NewFromArray (keys values : List GoVal) : Map :=
  ⟨newFromArrayLoop values keys 0 []⟩

/-- Set sets key-value to the hash map. -/
def Set (m : Map) (key val : GoVal) : Map := ⟨setData m.data key val⟩

/-- Sets batch sets key-values to the hash map. -/
def Sets (m : Map) (data : List (GoVal × GoVal)) : Map := ⟨setAllData m.data data⟩

/-- Search searches the map with the given key, returning the value and a
found flag. -/
def Search (m : Map) (key : GoVal) : GoVal × Bool :=
  match findVal m.data key with
  | some v => (v, true)
  | none => (.nil, false)

/-- Get returns the value by the given key, or the zero value nil. -/
def Get (m : Map) (key : GoVal) : GoVal :=
  match findVal m.data key with
  | some v => v
  | none => .nil

/-- The type switch of doSetWithLockCheck: a value of dynamic type
func() interface is invoked and replaced by its result before being
stored; any other value is stored as is. -/
def resolveValue : GoVal → GoVal
  | .fn f => f ()
  | v => v

/-- doSetWithLockCheck re-checks presence under the write lock; if absent
it stores the value — first invoking it if it is a nullary function — and
returns what it stored, else it returns the existing value. -/
def doSetWithLockCheck (m : Map) (key value : GoVal) : GoVal × Map :=
  match findVal m.data key with
  | some v => (v, m)
  | none =>
      let v := resolveValue value
      (v, ⟨setData m.data key v⟩)

/-- GetOrSet returns the value by key, or sets the given value if absent
and returns it. -/
def GetOrSet (m : Map) (key value : GoVal) : GoVal × Map :=
  match Search m key with
  | (v, true) => (v, m)
  | (_, false) => doSetWithLockCheck m key value

/-- GetOrSetFunc is GetOrSet with the value produced by the callback,
invoked before taking the write lock. -/
def GetOrSetFunc (m : Map) (key : GoVal) (f : Unit → GoVal) : GoVal × Map :=
  match Search m key with
  | (v, true) => (v, m)
  | (_, false) => doSetWithLockCheck m key (f ())

/-- GetOrSetFuncLock is GetOrSet with the callback passed down so that it
is invoked under the write lock of doSetWithLockCheck. -/
def GetOrSetFuncLock (m : Map) (key : GoVal) (f : Unit → GoVal) : GoVal × Map :=
  match Search m key with
  | (v, true) => (v, m)
  | (_, false) => doSetWithLockCheck m key (.fn f)

/-- Contains checks whether a key exists. -/
def Contains (m : Map) (key : GoVal) : Bool := containsData m.data key

/-- SetIfNotExist sets value if the key does not exist and reports whether
it did. -/
def SetIfNotExist (m : Map) (key value : GoVal) : Bool × Map :=
  if Contains m key then (false, m)
  else (true, (doSetWithLockCheck m key value).2)

/-- SetIfNotExistFunc is SetIfNotExist with the value produced by the
callback, invoked before taking the write lock. -/
def SetIfNotExistFunc (m : Map) (key : GoVal) (f : Unit → GoVal) : Bool × Map :=
  if Contains m key then (false, m)
  else (true, (doSetWithLockCheck m key (f ())).2)

/-- SetIfNotExistFuncLock is SetIfNotExist with the callback invoked under
the write lock of doSetWithLockCheck. -/
def SetIfNotExistFuncLock (m : Map) (key : GoVal) (f : Unit → GoVal) : Bool × Map :=
  if Contains m key then (false, m)
  else (true, (doSetWithLockCheck m key (.fn f)).2)

/-- Remove deletes the value by key and returns it (the zero value nil
when the key was absent, in which case the map is untouched). -/
def Remove (m : Map) (key : GoVal) : GoVal × Map :=
  match findVal m.data key with
  | some v => (v, ⟨removeData m.data key⟩)
  | none => (.nil, m)

/-- Removes batch deletes values of the map by keys. -/
def Removes (m : Map) (keys : List GoVal) : Map := ⟨removesData m.data keys⟩

/-- Keys returns all keys of the map as a slice. -/
def Keys (m : Map) : List GoVal := m.data.map (fun p => p.1)

/-- Values returns all values of the map as a slice. -/
def Values (m : Map) : List GoVal := m.data.map (fun p => p.2)

/-- Size returns the size of the map. -/
def Size (m : Map) : Nat := m.data.length

/-- IsEmpty checks whether the map is empty. -/
def IsEmpty (m : Map) : Bool := decide (m.data.length = 0)

/-- Clear replaces the backing store with a new empty one. -/
def Clear (_ : Map) : Map := ⟨[]⟩

/-- Flip exchanges key-value of the map to value-key. -/
def Flip (m : Map) : Map := ⟨flipLoop [] m.data⟩

/-- Merge merges the other map into m, overwriting on key collision. -/
def Merge (m other : Map) : Map := ⟨setAllData m.data other.data⟩

/-- doSetWithLockCheck instrumented with the number of times the embedded
nullary-function value is invoked. -/
def doSetWithLockCheckCount (m : Map) (key value : GoVal) : GoVal × Map × Nat :=
  match findVal m.data key with
  | some v => (v, m, 0)
  | none =>
      let v := resolveValue value
      (v, ⟨setData m.data key v⟩, if value.isFn then 1 else 0)

/-- GetOrSetFuncLock instrumented with the number of invocations of the
callback f. -/
def GetOrSetFuncLockCount (m : Map) (key : GoVal) (f : Unit → GoVal) : GoVal × Map × Nat :=
  match Search m key with
  | (v, true) => (v, m, 0)
  | (_, false) => doSetWithLockCheckCount m key (.fn f)

/-- Pairwise Go-inequality of a list of dynamic values. -/
def pairwiseDistinct : List GoVal → Bool
  | [] => true
  | x :: xs => xs.all (fun y => !goEq x y) && pairwiseDistinct xs

/-- Representation invariant of a Go map: at most one binding per key. -/
def nodupKeys (d : GoMapData) : Bool := pairwiseDistinct (d.map (fun p => p.1))

/-- All values of the list are of comparable (valid-key) type. -/
def allComparable (l : List GoVal) : Bool := l.all GoVal.comparable

/-- One mutating call of the public API, for reasoning about sequences of
operations applied to a map. -/
inductive Op where
  | set : GoVal → GoVal → Op
  | sets : List (GoVal × GoVal) → Op
  | getOrSet : GoVal → GoVal → Op
  | getOrSetFunc : GoVal → (Unit → GoVal) → Op
  | getOrSetFuncLock : GoVal → (Unit → GoVal) → Op
  | setIfNotExist : GoVal → GoVal → Op
  | setIfNotExistFunc : GoVal → (Unit → GoVal) → Op
  | setIfNotExistFuncLock : GoVal → (Unit → GoVal) → Op
  | remove : GoVal → Op
  | removes : List GoVal → Op
  | merge : List (GoVal × GoVal) → Op
  | clear : Op
  | flip : Op

/-- Effect of one public operation on the map state. -/
def applyOp (m : Map) : Op → Map
  | .set k v => Set m k v
  | .sets d => Sets m d
  | .getOrSet k v => (GetOrSet m k v).2
  | .getOrSetFunc k f => (GetOrSetFunc m k f).2
  | .getOrSetFuncLock k f => (GetOrSetFuncLock m k f).2
  | .setIfNotExist k v => (SetIfNotExist m k v).2
  | .setIfNotExistFunc k f => (SetIfNotExistFunc m k f).2
  | .setIfNotExistFuncLock k f => (SetIfNotExistFuncLock m k f).2
  | .remove k => (Remove m k).2
  | .removes ks => Removes m ks
  | .merge d => Merge m ⟨d⟩
  | .clear => Clear m
  | .flip => Flip m

/-- Run a sequence of public operations from the given map. -/
def runOps (m : Map) (ops : List Op) : Map := ops.foldl applyOp m

/-- Whether the operation is Flip. -/
def Op.isFlip : Op → Bool
  | .flip => true
  | _ => false

/-- Whether the operation stores under key k: Set, Sets, the GetOrSet
family, the SetIfNotExist family and Merge targeting k. -/
def storesKey : Op → GoVal → Bool
  | .set k' _, k => goEq k' k
  | .sets d, k => containsData d k
  | .getOrSet k' _, k => goEq k' k
  | .getOrSetFunc k' _, k => goEq k' k
  | .getOrSetFuncLock k' _, k => goEq k' k
  | .setIfNotExist k' _, k => goEq k' k
  | .setIfNotExistFunc k' _, k => goEq k' k
  | .setIfNotExistFuncLock k' _, k => goEq k' k
  | .merge d, k => containsData d k
  | _, _ => false

/-- Whether the operation removes key k: Remove and Removes targeting k,
Clear, and Flip (which replaces the whole key set). -/
def removesKey : Op → GoVal → Bool
  | .remove k', k => goEq k' k
  | .removes ks, k => ks.any (fun k' => goEq k' k)
  | .clear, _ => true
  | .flip, _ => true
  | _, _ => false

/-- Specification predicate: some operation of the sequence stores under
key k and no later operation removes k. -/
def storedLive : List Op → GoVal → Bool
  | [], _ => false
  | o :: rest, k =>
      (storesKey o k && rest.all (fun o2 => !removesKey o2 k)) || storedLive rest k

/-! Basic properties of Go equality: it is a partial equivalence relation,
reflexive exactly on comparable values, and never true on functions. -/

theorem goEq_symm (a b : GoVal) : goEq a b = goEq b a := by
  cases a <;> cases b <;> simp [goEq, eq_comm]

theorem goEq_symm_true {a b : GoVal} (h : goEq a b = true) : goEq b a = true := by
  rw [goEq_symm]; exact h

theorem goEq_trans {a b c : GoVal} (h1 : goEq a b = true) (h2 : goEq b c = true) :
    goEq a c = true := by
  cases a <;> cases b <;> cases c <;> simp_all [goEq]

theorem goEq_refl {a : GoVal} (h : a.comparable = true) : goEq a a = true := by
  cases a <;> simp_all [goEq, GoVal.comparable]

theorem goEq_fn_right (a : GoVal) (f : Unit → GoVal) : goEq a (.fn f) = false := by
  cases a <;> rfl

theorem goEq_false_left {a ki k : GoVal} (hki : goEq ki k = true)
    (ha : goEq a ki = false) : goEq a k = false := by
  cases hx : goEq a k
  · rfl
  · rw [goEq_trans hx (goEq_symm_true hki)] at ha
    exact ha

theorem goEq_false_right {a ki k : GoVal} (ha : goEq a ki = true)
    (h : goEq ki k = false) : goEq a k = false := by
  cases hx : goEq a k
  · rfl
  · rw [goEq_trans (goEq_symm_true ha) hx] at h
    exact h

/-! Lookup and update on the raw association-list data. -/

theorem findVal_setData_eq (d : GoMapData) {ki k : GoVal} (v : GoVal)
    (h : goEq ki k = true) : findVal (setData d ki v) k = some v := by
  induction d with
  | nil => simp [setData, findVal, h]
  | cons p rest ih =>
      obtain ⟨a, b⟩ := p
      cases ha : goEq a ki with
      | true =>
          have hak : goEq a k = true := goEq_trans ha h
          simp [setData, ha, findVal, hak]
      | false =>
          have hak : goEq a k = false := goEq_false_left h ha
          simp [setData, ha, findVal, hak, ih]

theorem findVal_setData_ne (d : GoMapData) {ki k : GoVal} (v : GoVal)
    (h : goEq ki k = false) : findVal (setData d ki v) k = findVal d k := by
  induction d with
  | nil => simp [setData, findVal, h]
  | cons p rest ih =>
      obtain ⟨a, b⟩ := p
      cases ha : goEq a ki with
      | true =>
          have hak : goEq a k = false := goEq_false_right ha h
          simp [setData, ha, findVal, hak]
      | false => simp [setData, ha, findVal, ih]

theorem containsData_setData (d : GoMapData) (ki v k : GoVal) :
    containsData (setData d ki v) k = (goEq ki k || containsData d k) := by
  cases h : goEq ki k
  · simp [containsData, findVal_setData_ne d v h]
  · simp [containsData, findVal_setData_eq d v h]

theorem containsData_mono {d : GoMapData} {k' k : GoVal} (hkk : goEq k' k = true)
    (h : containsData d k' = true) : containsData d k = true := by
  induction d with
  | nil => simp [containsData, findVal] at h
  | cons p rest ih =>
      obtain ⟨a, b⟩ := p
      cases ha : goEq a k' with
      | false =>
          rw [containsData, findVal, if_neg (by simp [ha])] at h
          have hak : goEq a k = false := goEq_false_left hkk ha
          rw [containsData, findVal, if_neg (by simp [hak])]
          exact ih h
      | true =>
          have hak : goEq a k = true := goEq_trans ha hkk
          rw [containsData, findVal, if_pos (by simp [hak])]
          rfl

theorem setData_append {d : GoMapData} {k : GoVal} (v : GoVal)
    (h : containsData d k = false) : setData d k v = d ++ [(k, v)] := by
  induction d with
  | nil => rfl
  | cons p rest ih =>
      obtain ⟨a, b⟩ := p
      cases hak : goEq a k with
      | true => rw [containsData, findVal, if_pos (by simp [hak])] at h; simp at h
      | false =>
          rw [containsData, findVal, if_neg (by simp [hak])] at h
          rw [setData, if_neg (by simp [hak]), ih h]
          rfl

theorem findVal_append (d1 d2 : GoMapData) (k : GoVal) :
    findVal (d1 ++ d2) k =
      match findVal d1 k with
      | some v => some v
      | none => findVal d2 k := by
  induction d1 with
  | nil => simp [findVal]
  | cons p rest ih =>
      obtain ⟨a, b⟩ := p
      cases hak : goEq a k <;> simp [findVal, hak, ih]

theorem containsData_append (d1 d2 : GoMapData) (k : GoVal) :
    containsData (d1 ++ d2) k = (containsData d1 k || containsData d2 k) := by
  rw [containsData, findVal_append, containsData, containsData]
  cases h : findVal d1 k <;> simp

theorem findVal_none_of_keys {d : GoMapData} {kb k : GoVal}
    (hall : (d.map (fun p => p.1)).all (fun y => !goEq kb y) = true)
    (hbk : goEq kb k = true) : findVal d k = none := by
  induction d with
  | nil => rfl
  | cons p rest ih =>
      obtain ⟨a, b⟩ := p
      simp only [List.map_cons, List.all_cons, Bool.and_eq_true] at hall
      obtain ⟨h1, h2⟩ := hall
      rw [Bool.not_eq_true'] at h1
      have hak : goEq a k = false := goEq_false_left hbk (by
        rw [goEq_symm]; exact h1)
      rw [findVal, if_neg (by simp [hak])]
      exact ih h2

theorem pairwiseDistinct_cons (x : GoVal) (xs : List GoVal) :
    pairwiseDistinct (x :: xs) = (xs.all (fun y => !goEq x y) && pairwiseDistinct xs) := rfl

theorem nodupKeys_cons (k v : GoVal) (rest : GoMapData) :
    nodupKeys ((k, v) :: rest) =
      ((rest.map (fun p => p.1)).all (fun y => !goEq k y) && nodupKeys rest) := rfl

/-! Batch update (the loop of Sets and Merge). -/

theorem containsData_setAllData (l : List (GoVal × GoVal)) : ∀ (d : GoMapData) (k : GoVal),
    containsData (setAllData d l) k = (containsData l k || containsData d k) := by
  induction l with
  | nil => intro d k; simp [setAllData, containsData, findVal]
  | cons p rest ih =>
      intro d k
      obtain ⟨kb, vb⟩ := p
      rw [setAllData, ih, containsData_setData]
      cases hbk : goEq kb k <;> simp [containsData, findVal, hbk]

theorem findVal_setAllData (l : List (GoVal × GoVal)) : ∀ (d : GoMapData) (k : GoVal),
    nodupKeys l = true →
    findVal (setAllData d l) k =
      match findVal l k with
      | some v => some v
      | none => findVal d k := by
  induction l with
  | nil => intro d k _; simp [setAllData, findVal]
  | cons p rest ih =>
      intro d k hnd
      obtain ⟨kb, vb⟩ := p
      rw [nodupKeys_cons, Bool.and_eq_true] at hnd
      obtain ⟨hhead, htail⟩ := hnd
      rw [setAllData, ih _ k htail]
      cases hbk : goEq kb k with
      | false =>
          rw [findVal_setData_ne d vb hbk, findVal, if_neg (by simp [hbk])]
      | true =>
          have hrest : findVal rest k = none := findVal_none_of_keys hhead hbk
          rw [hrest, findVal, if_pos (by simp [hbk]), findVal_setData_eq d vb hbk]

theorem setAllData_append (l : List (GoVal × GoVal)) : ∀ (d : GoMapData),
    nodupKeys l = true → (l.all fun p => !containsData d p.1) = true →
    setAllData d l = d ++ l := by
  induction l with
  | nil => intro d _ _; simp [setAllData]
  | cons p rest ih =>
      intro d hnd hdisj
      obtain ⟨kb, vb⟩ := p
      rw [nodupKeys_cons, Bool.and_eq_true] at hnd
      obtain ⟨hhead, htail⟩ := hnd
      simp only [List.all_cons, Bool.and_eq_true] at hdisj
      obtain ⟨h1, h2⟩ := hdisj
      rw [Bool.not_eq_true'] at h1
      have hdisj2 : (rest.all fun p => !containsData (d ++ [(kb, vb)]) p.1) = true := by
        rw [List.all_eq_true] at h2 ⊢
        intro p hp
        have hd : containsData d p.1 = false := by
          have := h2 p hp
          rwa [Bool.not_eq_true'] at this
        have hkb : goEq kb p.1 = false := by
          rw [List.all_eq_true] at hhead
          have := hhead p.1 (List.mem_map.mpr ⟨p, hp, rfl⟩)
          rwa [Bool.not_eq_true'] at this
        rw [Bool.not_eq_true', containsData_append, hd]
        simp [containsData, findVal, hkb]
      rw [setAllData, setData_append vb h1, ih _ htail hdisj2, List.append_assoc,
        List.singleton_append]

/-! Deletion (Remove and the loop of Removes). -/

theorem findVal_removeData_ne (d : GoMapData) {k' k : GoVal} (h : goEq k' k = false) :
    findVal (removeData d k') k = findVal d k := by
  induction d with
  | nil => rfl
  | cons p rest ih =>
      obtain ⟨a, b⟩ := p
      cases ha : goEq a k' with
      | true =>
          have hak : goEq a k = false := goEq_false_right ha h
          simp [removeData, ha, findVal, hak, ih]
      | false =>
          cases hak : goEq a k <;> simp [removeData, ha, findVal, hak, ih]

theorem findVal_removeData_eqkey {d : GoMapData} {k' k : GoVal} (h : goEq k' k = true) :
    findVal (removeData d k') k = none := by
  induction d with
  | nil => rfl
  | cons p rest ih =>
      obtain ⟨a, b⟩ := p
      cases ha : goEq a k' with
      | true => simp [removeData, ha, ih]
      | false =>
          have hak : goEq a k = false := goEq_false_left h ha
          simp [removeData, ha, findVal, hak, ih]

theorem containsData_removeData (d : GoMapData) (k' k : GoVal) :
    containsData (removeData d k') k = (containsData d k && !goEq k' k) := by
  cases h : goEq k' k
  · rw [containsData, findVal_removeData_ne d h]
    simp [containsData]
  · rw [containsData, findVal_removeData_eqkey h]
    simp

theorem containsData_removesData (ks : List GoVal) : ∀ (d : GoMapData) (k : GoVal),
    containsData (removesData d ks) k =
      (containsData d k && !(ks.any (fun k' => goEq k' k))) := by
  induction ks with
  | nil => intro d k; simp [removesData]
  | cons k' rest ih =>
      intro d k
      rw [removesData, ih, containsData_removeData]
      cases h1 : goEq k' k <;> cases h2 : containsData d k <;>
        simp [List.any_cons, h1, h2]

/-! Flip: on data with pairwise distinct values the loop appends only, so
it maps each binding to its swap. -/

theorem flipLoop_append (d : GoMapData) : ∀ (n : GoMapData),
    pairwiseDistinct (d.map (fun p => p.2)) = true →
    (d.all fun p => !containsData n p.2) = true →
    flipLoop n d = n ++ d.map (fun p => (p.2, p.1)) := by
  induction d with
  | nil => intro n _ _; simp [flipLoop]
  | cons p rest ih =>
      intro n hdis hn
      obtain ⟨k, v⟩ := p
      rw [List.map_cons, pairwiseDistinct_cons, Bool.and_eq_true] at hdis
      obtain ⟨hv, hrest⟩ := hdis
      simp only [List.all_cons, Bool.and_eq_true] at hn
      obtain ⟨hn1, hn2⟩ := hn
      rw [Bool.not_eq_true'] at hn1
      have hdisj2 : (rest.all fun p => !containsData (n ++ [(v, k)]) p.2) = true := by
        rw [List.all_eq_true] at hn2 ⊢
        intro p hp
        have hd : containsData n p.2 = false := by
          have := hn2 p hp
          rwa [Bool.not_eq_true'] at this
        have hvp : goEq v p.2 = false := by
          rw [List.all_eq_true] at hv
          have := hv p.2 (List.mem_map.mpr ⟨p, hp, rfl⟩)
          rwa [Bool.not_eq_true'] at this
        rw [Bool.not_eq_true', containsData_append, hd]
        simp [containsData, findVal, hvp]
      rw [flipLoop, setData_append k hn1, ih _ hrest hdisj2, List.append_assoc,
        List.singleton_append, List.map_cons]

theorem flipLoop_eq_swap (d : GoMapData)
    (h : pairwiseDistinct (d.map fun p => p.2) = true) :
    flipLoop [] d = d.map (fun p => (p.2, p.1)) := by
  have hall : (d.all fun p => !containsData [] p.2) = true := by
    rw [List.all_eq_true]
    intro p _
    rfl
  simpa using flipLoop_append d [] h hall

theorem flip_flip (m : Map) (hk : nodupKeys m.data = true)
    (hv : pairwiseDistinct (m.data.map fun p => p.2) = true) : Flip (Flip m) = m := by
  obtain ⟨d⟩ := m
  simp only [Flip]
  rw [flipLoop_eq_swap d hv]
  rw [flipLoop_eq_swap _ (by rw [List.map_map]; exact hk)]
  rw [List.map_map]
  exact congrArg Map.mk (List.map_id d)

/-! The NewFromArray loop: both branches of its conditional store the
value at the running index with nil as the out-of-range default. -/

theorem newFromArrayLoop_step (values : List GoVal) (k : GoVal) (ks : List GoVal)
    (i : Nat) (d : GoMapData) :
    newFromArrayLoop values (k :: ks) i d =
      newFromArrayLoop values ks (i + 1) (setData d k (values.getD i .nil)) := by
  rw [newFromArrayLoop]
  by_cases hi : i < values.length
  · rw [if_pos hi]
  · rw [if_neg hi, List.getD_eq_default values _ (Nat.le_of_not_lt hi)]

theorem newFromArrayLoop_findVal_untouched (values : List GoVal) (ks : List GoVal) :
    ∀ (i : Nat) (d : GoMapData) (key : GoVal),
    (ks.all fun k' => !goEq k' key) = true →
    findVal (newFromArrayLoop values ks i d) key = findVal d key := by
  induction ks with
  | nil => intro i d key _; rfl
  | cons k ks' ih =>
      intro i d key hall
      simp only [List.all_cons, Bool.and_eq_true] at hall
      obtain ⟨h1, h2⟩ := hall
      rw [Bool.not_eq_true'] at h1
      rw [newFromArrayLoop_step, ih _ _ _ h2, findVal_setData_ne d _ h1]

theorem newFromArrayLoop_findVal (values : List GoVal) (ks : List GoVal) :
    ∀ (i : Nat) (d : GoMapData) (j : Nat) (h : j < ks.length),
    allComparable ks = true → pairwiseDistinct ks = true →
    (ks.all fun k' => !containsData d k') = true →
    findVal (newFromArrayLoop values ks i d) (ks.get ⟨j, h⟩) =
      some (values.getD (i + j) .nil) := by
  induction ks with
  | nil => intro i d j h _ _ _; exact absurd h (Nat.not_lt_zero j)
  | cons k ks' ih =>
      intro i d j h hcomp hdis hdisj
      simp only [allComparable, List.all_cons, Bool.and_eq_true] at hcomp
      obtain ⟨hc1, hc2⟩ := hcomp
      rw [pairwiseDistinct_cons, Bool.and_eq_true] at hdis
      obtain ⟨hd1, hd2⟩ := hdis
      simp only [List.all_cons, Bool.and_eq_true] at hdisj
      obtain ⟨hj1, hj2⟩ := hdisj
      rw [Bool.not_eq_true'] at hj1
      rw [newFromArrayLoop_step]
      cases j with
      | zero =>
          have huntouched : (ks'.all fun k' => !goEq k' k) = true := by
            rw [List.all_eq_true] at hd1 ⊢
            intro k' hk'
            have h1 := hd1 k' hk'
            rw [Bool.not_eq_true'] at h1
            rw [Bool.not_eq_true', goEq_symm]
            exact h1
          have hget0 : (k :: ks').get ⟨0, h⟩ = k := rfl
          rw [hget0, newFromArrayLoop_findVal_untouched values ks' _ _ _ huntouched,
            findVal_setData_eq d _ (goEq_refl hc1), Nat.add_zero]
      | succ j' =>
          have h' : j' < ks'.length := Nat.lt_of_succ_lt_succ h
          have hdisj' : (ks'.all fun k' =>
              !containsData (setData d k (values.getD i .nil)) k') = true := by
            rw [List.all_eq_true] at hj2 ⊢
            intro k' hk'
            have hck : containsData d k' = false := by
              have := hj2 k' hk'
              rwa [Bool.not_eq_true'] at this
            have hkk' : goEq k k' = false := by
              rw [List.all_eq_true] at hd1
              have := hd1 k' hk'
              rwa [Bool.not_eq_true'] at this
            rw [Bool.not_eq_true', containsData_setData, hck, hkk']
            rfl
          have hmain := ih (i + 1) _ j' h' hc2 hd2 hdisj'
          have harith : i + 1 + j' = i + (j' + 1) := by omega
          rw [harith] at hmain
          exact hmain

/-! Behaviour of the double-checked set and the key-presence formula of
every mutating operation. -/

theorem findVal_none_of_not_contains {d : GoMapData} {k : GoVal}
    (h : containsData d k = false) : findVal d k = none := by
  rw [containsData] at h
  cases hx : findVal d k
  · rfl
  · rw [hx] at h
    simp at h

theorem or_contains_of_present {m : Map} {k' k v0 : GoVal}
    (hs : findVal m.data k' = some v0) :
    (goEq k' k || Contains m k) = Contains m k := by
  cases hk' : goEq k' k
  · simp
  · have hc : Contains m k = true := containsData_mono hk' (by simp [containsData, hs])
    simp [hc]

theorem Contains_doSet (m : Map) (k' value k : GoVal) :
    Contains (doSetWithLockCheck m k' value).2 k = (goEq k' k || Contains m k) := by
  rw [doSetWithLockCheck]
  cases hs : findVal m.data k' with
  | some v0 => exact (or_contains_of_present hs).symm
  | none => simp [Contains, containsData_setData]

theorem Contains_applyOp (m : Map) (o : Op) (k : GoVal) (h : o.isFlip = false) :
    Contains (applyOp m o) k = (storesKey o k || (Contains m k && !removesKey o k)) := by
  cases o with
  | set k' v =>
      simp [applyOp, Set, Contains, containsData_setData, storesKey, removesKey]
  | sets d =>
      simp [applyOp, Sets, Contains, containsData_setAllData, storesKey, removesKey]
  | getOrSet k' v =>
      simp only [applyOp, storesKey, removesKey, Bool.not_false, Bool.and_true]
      rw [GetOrSet]
      cases hs : findVal m.data k' with
      | some v0 =>
          simp only [Search, hs]
          exact (or_contains_of_present hs).symm
      | none => simp [Search, hs, Contains_doSet]
  | getOrSetFunc k' f =>
      simp only [applyOp, storesKey, removesKey, Bool.not_false, Bool.and_true]
      rw [GetOrSetFunc]
      cases hs : findVal m.data k' with
      | some v0 =>
          simp only [Search, hs]
          exact (or_contains_of_present hs).symm
      | none => simp [Search, hs, Contains_doSet]
  | getOrSetFuncLock k' f =>
      simp only [applyOp, storesKey, removesKey, Bool.not_false, Bool.and_true]
      rw [GetOrSetFuncLock]
      cases hs : findVal m.data k' with
      | some v0 =>
          simp only [Search, hs]
          exact (or_contains_of_present hs).symm
      | none => simp [Search, hs, Contains_doSet]
  | setIfNotExist k' v =>
      simp only [applyOp, storesKey, removesKey, Bool.not_false, Bool.and_true]
      rw [SetIfNotExist]
      cases hc : Contains m k' with
      | true =>
          obtain ⟨v0, hs⟩ := Option.isSome_iff_exists.mp hc
          simp only [hc, if_true]
          exact (or_contains_of_present hs).symm
      | false => simp [hc, Contains_doSet]
  | setIfNotExistFunc k' f =>
      simp only [applyOp, storesKey, removesKey, Bool.not_false, Bool.and_true]
      rw [SetIfNotExistFunc]
      cases hc : Contains m k' with
      | true =>
          obtain ⟨v0, hs⟩ := Option.isSome_iff_exists.mp hc
          simp only [hc, if_true]
          exact (or_contains_of_present hs).symm
      | false => simp [hc, Contains_doSet]
  | setIfNotExistFuncLock k' f =>
      simp only [applyOp, storesKey, removesKey, Bool.not_false, Bool.and_true]
      rw [SetIfNotExistFuncLock]
      cases hc : Contains m k' with
      | true =>
          obtain ⟨v0, hs⟩ := Option.isSome_iff_exists.mp hc
          simp only [hc, if_true]
          exact (or_contains_of_present hs).symm
      | false => simp [hc, Contains_doSet]
  | remove k' =>
      simp only [applyOp, storesKey, removesKey, Bool.false_or]
      rw [Remove]
      cases hs : findVal m.data k' with
      | some v0 => simp [Contains, containsData_removeData]
      | none =>
          cases hk' : goEq k' k
          · simp
          · cases hck : Contains m k
            · simp [hck]
            · have hpres : containsData m.data k' = true :=
                containsData_mono (goEq_symm_true hk') hck
              rw [containsData, hs] at hpres
              simp at hpres
  | removes ks =>
      simp [applyOp, Removes, Contains, containsData_removesData, storesKey, removesKey]
  | merge d =>
      simp [applyOp, Merge, Contains, containsData_setAllData, storesKey, removesKey]
  | clear =>
      simp [applyOp, Clear, Contains, containsData, findVal, storesKey, removesKey]
  | flip => simp [Op.isFlip] at h

theorem contains_runOps (ops : List Op) : ∀ (m : Map) (k : GoVal),
    (ops.all fun o => !o.isFlip) = true →
    Contains (runOps m ops) k =
      (storedLive ops k || (Contains m k && ops.all (fun o => !removesKey o k))) := by
  induction ops with
  | nil => intro m k _; simp [runOps, storedLive]
  | cons o rest ih =>
      intro m k hnf
      simp only [List.all_cons, Bool.and_eq_true] at hnf
      obtain ⟨h1, h2⟩ := hnf
      rw [Bool.not_eq_true'] at h1
      rw [runOps, List.foldl_cons]
      have hmain := ih (applyOp m o) k h2
      rw [runOps] at hmain
      rw [hmain, Contains_applyOp m o k h1]
      simp only [storedLive, List.all_cons]
      generalize storesKey o k = s
      generalize removesKey o k = r
      generalize Contains m k = c
      generalize storedLive rest k = L
      generalize rest.all (fun o2 => !removesKey o2 k) = A
      cases s <;> cases r <;> cases c <;> cases L <;> cases A <;> rfl

/-! Auxiliary facts used by the claim theorems. -/

theorem goEq_self_of_findVal {d : GoMapData} {k v : GoVal}
    (h : findVal d k = some v) : goEq k k = true := by
  induction d with
  | nil => simp [findVal] at h
  | cons p rest ih =>
      obtain ⟨a, b⟩ := p
      cases ha : goEq a k with
      | false =>
          rw [findVal, if_neg (by simp [ha])] at h
          exact ih h
      | true => exact goEq_trans (goEq_symm_true ha) ha

/-! Claim theorems. -/

/-- C1, counterexample: the claim quantifies over every value v, but when v
has dynamic type func() interface the code stores the result of invoking v,
not v itself: GetOrSet on an absent key with such a v returns and stores
int 7, which is not the passed function. -/
theorem claim1_counterexample :
    (GetOrSet New (GoVal.int 1) (GoVal.fn fun _ => GoVal.int 7)).1 = GoVal.int 7 ∧
    Search (GetOrSet New (GoVal.int 1) (GoVal.fn fun _ => GoVal.int 7)).2 (GoVal.int 1)
      = (GoVal.int 7, true) ∧
    GoVal.int 7 ≠ GoVal.fn (fun _ => GoVal.int 7) :=
  ⟨rfl, rfl, fun h => GoVal.noConfusion h⟩

/-- C1 (amended): for every comparable key k and every value v that is not
a nullary function, if k is present GetOrSet returns the existing value and
leaves the map unchanged (v is not stored); if k is absent it stores v
under k, returns v, and leaves every other key unchanged. -/
theorem claim1_getOrSet (m : Map) (k v : GoVal)
    (hk : k.comparable = true) (hv : v.isFn = false) :
    (Contains m k = true → GetOrSet m k v = (Get m k, m)) ∧
    (Contains m k = false →
      (GetOrSet m k v).1 = v ∧
      Search (GetOrSet m k v).2 k = (v, true) ∧
      (∀ k', goEq k' k = false → Search (GetOrSet m k v).2 k' = Search m k')) := by
  have hres : resolveValue v = v := by
    cases v with
    | fn f => simp [GoVal.isFn] at hv
    | nil => rfl
    | int n => rfl
  constructor
  · intro hc
    obtain ⟨v0, hs⟩ := Option.isSome_iff_exists.mp hc
    simp [GetOrSet, Search, Get, hs]
  · intro hc
    have hs : findVal m.data k = none := findVal_none_of_not_contains hc
    have hgos : GetOrSet m k v = (v, ⟨setData m.data k v⟩) := by
      simp [GetOrSet, Search, hs, doSetWithLockCheck, hres]
    rw [hgos]
    refine ⟨rfl, ?_, ?_⟩
    · simp [Search, findVal_setData_eq m.data v (goEq_refl hk)]
    · intro k' hkk'
      have hne : goEq k k' = false := by rw [goEq_symm]; exact hkk'
      simp [Search, findVal_setData_ne m.data v hne]

/-- C1 witness: on a present key GetOrSet returns the stored value and the
unchanged map; on an absent key it stores and returns the given value. -/
theorem claim1_getOrSet_witness :
    GetOrSet ⟨[(GoVal.int 2, GoVal.int 3)]⟩ (GoVal.int 2) (GoVal.int 5)
      = (GoVal.int 3, ⟨[(GoVal.int 2, GoVal.int 3)]⟩) ∧
    (GetOrSet New (GoVal.int 1) (GoVal.int 5)).1 = GoVal.int 5 ∧
    Search (GetOrSet New (GoVal.int 1) (GoVal.int 5)).2 (GoVal.int 1)
      = (GoVal.int 5, true) :=
  ⟨(claim1_getOrSet ⟨[(GoVal.int 2, GoVal.int 3)]⟩ (GoVal.int 2) (GoVal.int 5) rfl rfl).1 rfl,
   ((claim1_getOrSet New (GoVal.int 1) (GoVal.int 5) rfl rfl).2 rfl).1,
   ((claim1_getOrSet New (GoVal.int 1) (GoVal.int 5) rfl rfl).2 rfl).2.1⟩

/-- C2, counterexample: the claim quantifies over every value v, but when v
has dynamic type func() interface the code stores the result of invoking v,
not v itself: SetIfNotExist on an absent key with such a v stores nil,
which is not the passed function. -/
theorem claim2_counterexample :
    (SetIfNotExist New (GoVal.int 2) (GoVal.fn fun _ => GoVal.nil)).1 = true ∧
    Search (SetIfNotExist New (GoVal.int 2) (GoVal.fn fun _ => GoVal.nil)).2 (GoVal.int 2)
      = (GoVal.nil, true) ∧
    GoVal.nil ≠ GoVal.fn (fun _ => GoVal.nil) :=
  ⟨rfl, rfl, fun h => GoVal.noConfusion h⟩

/-- C2 (amended): for every comparable key k and every value v that is not
a nullary function, SetIfNotExist returns true and stores v when k is
absent, leaving every other key unchanged; when k is present it returns
false, discards v, and the whole map is unchanged. -/
theorem claim2_setIfNotExist (m : Map) (k v : GoVal)
    (hk : k.comparable = true) (hv : v.isFn = false) :
    (Contains m k = true → SetIfNotExist m k v = (false, m)) ∧
    (Contains m k = false →
      (SetIfNotExist m k v).1 = true ∧
      Search (SetIfNotExist m k v).2 k = (v, true) ∧
      (∀ k', goEq k' k = false → Search (SetIfNotExist m k v).2 k' = Search m k')) := by
  have hres : resolveValue v = v := by
    cases v with
    | fn f => simp [GoVal.isFn] at hv
    | nil => rfl
    | int n => rfl
  constructor
  · intro hc
    simp [SetIfNotExist, hc]
  · intro hc
    have hs : findVal m.data k = none := findVal_none_of_not_contains hc
    have hsin : SetIfNotExist m k v = (true, ⟨setData m.data k v⟩) := by
      simp [SetIfNotExist, hc, doSetWithLockCheck, hs, hres]
    rw [hsin]
    refine ⟨rfl, ?_, ?_⟩
    · simp [Search, findVal_setData_eq m.data v (goEq_refl hk)]
    · intro k' hkk'
      have hne : goEq k k' = false := by rw [goEq_symm]; exact hkk'
      simp [Search, findVal_setData_ne m.data v hne]

/-- C2 witness: SetIfNotExist stores and reports true on a fresh key, and
reports false leaving the map unchanged on a present key. -/
theorem claim2_setIfNotExist_witness :
    SetIfNotExist ⟨[(GoVal.int 2, GoVal.int 3)]⟩ (GoVal.int 2) (GoVal.int 5)
      = (false, ⟨[(GoVal.int 2, GoVal.int 3)]⟩) ∧
    (SetIfNotExist New (GoVal.int 1) (GoVal.int 5)).1 = true ∧
    Search (SetIfNotExist New (GoVal.int 1) (GoVal.int 5)).2 (GoVal.int 1)
      = (GoVal.int 5, true) :=
  ⟨(claim2_setIfNotExist ⟨[(GoVal.int 2, GoVal.int 3)]⟩ (GoVal.int 2) (GoVal.int 5) rfl rfl).1 rfl,
   ((claim2_setIfNotExist New (GoVal.int 1) (GoVal.int 5) rfl rfl).2 rfl).1,
   ((claim2_setIfNotExist New (GoVal.int 1) (GoVal.int 5) rfl rfl).2 rfl).2.1⟩

/-- C3 (confirmed): in GetOrSetFuncLock the supplier f is invoked at most
once; it agrees with the uninstrumented operation; when the key is present
f is never invoked and the existing value is returned with the map
untouched; when the key is absent f is invoked exactly once and its result
returned; and at the re-check of doSetWithLockCheck itself a present key
returns the existing value with zero invocations. -/
theorem claim3_getOrSetFuncLock_supplier (m : Map) (k : GoVal) (f : Unit → GoVal) :
    (GetOrSetFuncLockCount m k f).2.2 ≤ 1 ∧
    ((GetOrSetFuncLockCount m k f).1, (GetOrSetFuncLockCount m k f).2.1)
      = GetOrSetFuncLock m k f ∧
    (Contains m k = true → GetOrSetFuncLockCount m k f = (Get m k, m, 0)) ∧
    (Contains m k = false →
      (GetOrSetFuncLockCount m k f).2.2 = 1 ∧ (GetOrSetFuncLockCount m k f).1 = f ()) ∧
    (Contains m k = true → doSetWithLockCheckCount m k (.fn f) = (Get m k, m, 0)) := by
  cases hs : findVal m.data k with
  | some v0 =>
      have hc : Contains m k = true := by simp [Contains, containsData, hs]
      refine ⟨?_, ?_, ?_, ?_, ?_⟩ <;>
        simp [GetOrSetFuncLockCount, GetOrSetFuncLock, doSetWithLockCheckCount,
          doSetWithLockCheck, Search, Get, hs, hc]
  | none =>
      have hc : Contains m k = false := by simp [Contains, containsData, hs]
      refine ⟨?_, ?_, ?_, ?_, ?_⟩ <;>
        simp [GetOrSetFuncLockCount, GetOrSetFuncLock, doSetWithLockCheckCount,
          doSetWithLockCheck, Search, Get, hs, hc, resolveValue, GoVal.isFn]

/-- C3 witness: on a map where key 1 holds 5, the locked supplier variant
performs zero invocations and returns the stored value unchanged. -/
theorem claim3_supplier_witness :
    (GetOrSetFuncLockCount ⟨[(GoVal.int 1, GoVal.int 5)]⟩ (GoVal.int 1)
      (fun _ => GoVal.int 9)).2.2 ≤ 1 ∧
    GetOrSetFuncLockCount ⟨[(GoVal.int 1, GoVal.int 5)]⟩ (GoVal.int 1)
      (fun _ => GoVal.int 9) = (GoVal.int 5, ⟨[(GoVal.int 1, GoVal.int 5)]⟩, 0) :=
  ⟨(claim3_getOrSetFuncLock_supplier ⟨[(GoVal.int 1, GoVal.int 5)]⟩ (GoVal.int 1)
      (fun _ => GoVal.int 9)).1,
   (claim3_getOrSetFuncLock_supplier ⟨[(GoVal.int 1, GoVal.int 5)]⟩ (GoVal.int 1)
      (fun _ => GoVal.int 9)).2.2.1 rfl⟩

/-- C4 (confirmed): on a map with pairwise distinct values (and the Go-map
invariant of pairwise distinct keys) Flip twice is the identity; on the
duplicate-value map with 1 and 2 both bound to 9 one Flip keeps only the
binding of 9 to 2, and flipping back yields 2 bound to 9, not the
original. -/
theorem claim4_flip (m : Map)
    (hk : nodupKeys m.data = true)
    (hv : pairwiseDistinct (m.data.map fun p => p.2) = true) :
    Flip (Flip m) = m ∧
    Flip ⟨[(GoVal.int 1, GoVal.int 9), (GoVal.int 2, GoVal.int 9)]⟩
      = ⟨[(GoVal.int 9, GoVal.int 2)]⟩ ∧
    Flip (Flip ⟨[(GoVal.int 1, GoVal.int 9), (GoVal.int 2, GoVal.int 9)]⟩)
      = ⟨[(GoVal.int 2, GoVal.int 9)]⟩ :=
  ⟨flip_flip m hk hv, rfl, rfl⟩

/-- C4 witness: the double Flip restores a concrete two-entry map with
distinct values. -/
theorem claim4_flip_witness :
    Flip (Flip ⟨[(GoVal.int 1, GoVal.int 10), (GoVal.int 2, GoVal.int 20)]⟩)
      = ⟨[(GoVal.int 1, GoVal.int 10), (GoVal.int 2, GoVal.int 20)]⟩ :=
  (claim4_flip ⟨[(GoVal.int 1, GoVal.int 10), (GoVal.int 2, GoVal.int 20)]⟩ rfl rfl).1

/-- C5 (confirmed): after Merge(other), every key of other is present with
other's value, keys absent from other keep their value in m, and for
disjoint key sets the sizes add. -/
theorem claim5_merge (m other : Map) (hwf : nodupKeys other.data = true) :
    (∀ k, Contains other k = true → Search (Merge m other) k = Search other k) ∧
    (∀ k, Contains other k = false → Search (Merge m other) k = Search m k) ∧
    ((other.data.all fun p => !containsData m.data p.1) = true →
      Size (Merge m other) = Size m + Size other) := by
  refine ⟨?_, ?_, ?_⟩
  · intro k hc
    obtain ⟨v0, hs⟩ := Option.isSome_iff_exists.mp hc
    have hfind := findVal_setAllData other.data m.data k hwf
    rw [hs] at hfind
    simp [Merge, Search, hfind, hs]
  · intro k hc
    have hs : findVal other.data k = none := findVal_none_of_not_contains hc
    have hfind := findVal_setAllData other.data m.data k hwf
    rw [hs] at hfind
    simp [Merge, Search, hfind]
  · intro hdisj
    rw [Size, Merge]
    rw [setAllData_append other.data m.data hwf hdisj]
    simp [Size]

/-- C5 witness: merging disjoint one-entry maps gives the other map's
value under its key and a size of two. -/
theorem claim5_merge_witness :
    Search (Merge ⟨[(GoVal.int 1, GoVal.int 5)]⟩ ⟨[(GoVal.int 2, GoVal.int 7)]⟩)
      (GoVal.int 2) = (GoVal.int 7, true) ∧
    Size (Merge ⟨[(GoVal.int 1, GoVal.int 5)]⟩ ⟨[(GoVal.int 2, GoVal.int 7)]⟩) = 2 :=
  ⟨(claim5_merge ⟨[(GoVal.int 1, GoVal.int 5)]⟩ ⟨[(GoVal.int 2, GoVal.int 7)]⟩ rfl).1
      (GoVal.int 2) rfl,
   (claim5_merge ⟨[(GoVal.int 1, GoVal.int 5)]⟩ ⟨[(GoVal.int 2, GoVal.int 7)]⟩ rfl).2.2 rfl⟩

/-- C6, counterexample: with duplicate keys the claim fails: NewFromArray
on keys 1, 1 and values 10 binds key 1 (which is keys at index 0) to nil,
not to 10 as the claim requires. -/
theorem claim6_counterexample :
    Search (NewFromArray [GoVal.int 1, GoVal.int 1] [GoVal.int 10]) (GoVal.int 1)
      = (GoVal.nil, true) ∧
    GoVal.nil ≠ GoVal.int 10 :=
  ⟨rfl, fun h => GoVal.noConfusion h⟩

/-- C6 (amended): for pairwise distinct comparable keys, with fewer values
than keys, NewFromArray binds the key at index j to the value at index j
when j is within the values, and to the explicit nil marker — the key
being present — otherwise. -/
theorem claim6_newFromArray (keys values : List GoVal)
    (hcomp : allComparable keys = true) (hdis : pairwiseDistinct keys = true)
    (_hlen : values.length < keys.length) :
    (∀ j (h : j < keys.length),
      Search (NewFromArray keys values) (keys.get ⟨j, h⟩) = (values.getD j .nil, true)) ∧
    (∀ j (h : j < keys.length) (hj : j < values.length),
      Search (NewFromArray keys values) (keys.get ⟨j, h⟩) = (values.get ⟨j, hj⟩, true)) ∧
    (∀ j (h : j < keys.length), values.length ≤ j →
      Search (NewFromArray keys values) (keys.get ⟨j, h⟩) = (.nil, true)) := by
  have hmain : ∀ j (h : j < keys.length),
      Search (NewFromArray keys values) (keys.get ⟨j, h⟩) = (values.getD j .nil, true) := by
    intro j h
    have hdisj : (keys.all fun k' => !containsData [] k') = true := by
      rw [List.all_eq_true]
      intro k' _
      rfl
    have hfind := newFromArrayLoop_findVal values keys 0 [] j h hcomp hdis hdisj
    rw [Nat.zero_add] at hfind
    rw [Search]
    simp only [NewFromArray]
    rw [hfind]
  refine ⟨hmain, ?_, ?_⟩
  · intro j h hj
    rw [hmain j h]
    rw [List.getD_eq_getElem values GoVal.nil hj]
    rfl
  · intro j h hj
    rw [hmain j h, List.getD_eq_default values GoVal.nil hj]

/-- C6 witness: NewFromArray on keys 1, 2, 3 and values 10, 20 binds 1 to
10 and leaves 3 present with the nil marker. -/
theorem claim6_newFromArray_witness :
    Search (NewFromArray [GoVal.int 1, GoVal.int 2, GoVal.int 3]
      [GoVal.int 10, GoVal.int 20]) (GoVal.int 1) = (GoVal.int 10, true) ∧
    Search (NewFromArray [GoVal.int 1, GoVal.int 2, GoVal.int 3]
      [GoVal.int 10, GoVal.int 20]) (GoVal.int 3) = (GoVal.nil, true) :=
  ⟨(claim6_newFromArray [GoVal.int 1, GoVal.int 2, GoVal.int 3]
      [GoVal.int 10, GoVal.int 20] rfl rfl (by decide)).1 0 (by decide),
   (claim6_newFromArray [GoVal.int 1, GoVal.int 2, GoVal.int 3]
      [GoVal.int 10, GoVal.int 20] rfl rfl (by decide)).1 2 (by decide)⟩

/-- C7 (confirmed): Remove returns the previously stored value (nil when
the key was absent), afterwards the key is not present while every other
key is unchanged, and on an absent key the map is entirely unchanged. -/
theorem claim7_remove (m : Map) (k : GoVal) :
    (Remove m k).1 = Get m k ∧
    Contains (Remove m k).2 k = false ∧
    (∀ k', goEq k' k = false → Search (Remove m k).2 k' = Search m k') ∧
    (Contains m k = false → (Remove m k).2 = m) := by
  cases hs : findVal m.data k with
  | some v0 =>
      refine ⟨?_, ?_, ?_, ?_⟩
      · simp [Remove, Get, hs]
      · have hself : goEq k k = true := goEq_self_of_findVal hs
        simp [Remove, hs, Contains, containsData_removeData, hself]
      · intro k' hkk'
        have hne : goEq k k' = false := by rw [goEq_symm]; exact hkk'
        simp [Remove, hs, Search, findVal_removeData_ne m.data hne]
      · intro hc
        rw [Contains, containsData, hs] at hc
        simp at hc
  | none =>
      refine ⟨?_, ?_, ?_, ?_⟩
      · simp [Remove, Get, hs]
      · simp [Remove, hs, Contains, containsData, hs]
      · intro k' hkk'
        simp [Remove, hs]
      · intro hc
        simp [Remove, hs]

/-- C7 witness: removing the present key 2 returns 3 and empties the map
while key 5 is unaffected; removing the absent key 7 leaves the map
unchanged. -/
theorem claim7_remove_witness :
    (Remove ⟨[(GoVal.int 2, GoVal.int 3)]⟩ (GoVal.int 2)).1 = GoVal.int 3 ∧
    Contains (Remove ⟨[(GoVal.int 2, GoVal.int 3)]⟩ (GoVal.int 2)).2 (GoVal.int 2) = false ∧
    Search (Remove ⟨[(GoVal.int 2, GoVal.int 3)]⟩ (GoVal.int 2)).2 (GoVal.int 5)
      = Search ⟨[(GoVal.int 2, GoVal.int 3)]⟩ (GoVal.int 5) ∧
    (Remove ⟨[(GoVal.int 2, GoVal.int 3)]⟩ (GoVal.int 7)).2 = ⟨[(GoVal.int 2, GoVal.int 3)]⟩ :=
  ⟨(claim7_remove ⟨[(GoVal.int 2, GoVal.int 3)]⟩ (GoVal.int 2)).1,
   (claim7_remove ⟨[(GoVal.int 2, GoVal.int 3)]⟩ (GoVal.int 2)).2.1,
   (claim7_remove ⟨[(GoVal.int 2, GoVal.int 3)]⟩ (GoVal.int 2)).2.2.1 (GoVal.int 5) rfl,
   (claim7_remove ⟨[(GoVal.int 2, GoVal.int 3)]⟩ (GoVal.int 7)).2.2.2 rfl⟩

/-- C8, counterexample: Flip can introduce presence of a key that no
operation ever stored under: after Set 1 9 followed by Flip, key 9 is
present although the claim's right-hand side (stored and not subsequently
removed, Flip counting as removal) is false for key 9. -/
theorem claim8_counterexample :
    Contains (runOps New [Op.set (GoVal.int 1) (GoVal.int 9), Op.flip]) (GoVal.int 9)
      = true ∧
    storedLive [Op.set (GoVal.int 1) (GoVal.int 9), Op.flip] (GoVal.int 9) = false :=
  ⟨rfl, rfl⟩

/-- C8 (amended): for every Flip-free sequence of operations run from the
empty map, a key is present exactly when some operation stored under it
and no later operation removed it (by Remove, Removes or Clear). -/
theorem claim8_contains_iff (ops : List Op) (k : GoVal)
    (hnf : (ops.all fun o => !o.isFlip) = true) :
    Contains (runOps New ops) k = storedLive ops k := by
  rw [contains_runOps ops New k hnf]
  simp [Contains, containsData, findVal, New]

/-- C8 witness: for the sequence Set 1 9, Remove 1, Set 2 5 the key 1 is
absent, as storedLive computes. -/
theorem claim8_contains_iff_witness :
    ([Op.set (GoVal.int 1) (GoVal.int 9), Op.remove (GoVal.int 1),
      Op.set (GoVal.int 2) (GoVal.int 5)].all fun o => !o.isFlip) = true ∧
    Contains (runOps New [Op.set (GoVal.int 1) (GoVal.int 9), Op.remove (GoVal.int 1),
      Op.set (GoVal.int 2) (GoVal.int 5)]) (GoVal.int 1)
      = storedLive [Op.set (GoVal.int 1) (GoVal.int 9), Op.remove (GoVal.int 1),
        Op.set (GoVal.int 2) (GoVal.int 5)] (GoVal.int 1) :=
  ⟨rfl,
   claim8_contains_iff [Op.set (GoVal.int 1) (GoVal.int 9), Op.remove (GoVal.int 1),
     Op.set (GoVal.int 2) (GoVal.int 5)] (GoVal.int 1) rfl⟩

/-- C9, counterexample: a nullary function value can be stored through
GetOrSet after all: passing a function that returns another function makes
the code store that returned function, so the stored value under key 1 is
itself a nullary function. -/
theorem claim9_counterexample :
    (Get (GetOrSet New (GoVal.int 1)
      (GoVal.fn fun _ => GoVal.fn fun _ => GoVal.nil)).2 (GoVal.int 1)).isFn = true :=
  rfl

/-- C9 (amended): when the value passed to GetOrSet or SetIfNotExist for an
absent comparable key has dynamic type func() interface, the function is
invoked and its return value — which may itself be a function — is stored
under the key instead of the passed function itself. -/
theorem claim9_fn_invoked (m : Map) (k : GoVal) (f : Unit → GoVal)
    (hk : k.comparable = true) (hc : Contains m k = false) :
    (GetOrSet m k (.fn f)).1 = f () ∧
    Search (GetOrSet m k (.fn f)).2 k = (f (), true) ∧
    (SetIfNotExist m k (.fn f)).1 = true ∧
    Search (SetIfNotExist m k (.fn f)).2 k = (f (), true) := by
  have hs : findVal m.data k = none := findVal_none_of_not_contains hc
  have hgos : GetOrSet m k (.fn f) = (f (), ⟨setData m.data k (f ())⟩) := by
    simp [GetOrSet, Search, hs, doSetWithLockCheck, resolveValue]
  have hsin : SetIfNotExist m k (.fn f) = (true, ⟨setData m.data k (f ())⟩) := by
    simp [SetIfNotExist, hc, doSetWithLockCheck, hs, resolveValue]
  rw [hgos, hsin]
  refine ⟨rfl, ?_, rfl, ?_⟩ <;>
    simp [Search, findVal_setData_eq m.data _ (goEq_refl hk)]

/-- C9 witness: GetOrSet with a supplier-typed value on an absent key
returns and stores the supplier's result. -/
theorem claim9_fn_invoked_witness :
    (GetOrSet New (GoVal.int 4) (GoVal.fn fun _ => GoVal.int 11)).1 = GoVal.int 11 ∧
    Search (GetOrSet New (GoVal.int 4) (GoVal.fn fun _ => GoVal.int 11)).2 (GoVal.int 4)
      = (GoVal.int 11, true) :=
  ⟨(claim9_fn_invoked New (GoVal.int 4) (fun _ => GoVal.int 11) rfl rfl).1,
   (claim9_fn_invoked New (GoVal.int 4) (fun _ => GoVal.int 11) rfl rfl).2.1⟩

/-- C10 (confirmed): Get returns nil on an absent key, the same value as
for a key stored with nil, so Get cannot distinguish the two; Search
carries the distinction in its found flag, which is false exactly when the
key is absent. -/
theorem claim10_get_search (m : Map) (k : GoVal) :
    (Contains m k = false → Get m k = .nil) ∧
    (Search m k).1 = Get m k ∧
    (Search m k).2 = Contains m k ∧
    (k.comparable = true →
      Get (Set m k .nil) k = .nil ∧ Search (Set m k .nil) k = (.nil, true)) := by
  refine ⟨?_, ?_, ?_, ?_⟩
  · intro hc
    have hs := findVal_none_of_not_contains hc
    simp [Get, hs]
  · cases hs : findVal m.data k <;> simp [Search, Get, hs]
  · cases hs : findVal m.data k <;> simp [Search, Contains, containsData, hs]
  · intro hk
    have hfind := findVal_setData_eq m.data GoVal.nil (goEq_refl hk)
    constructor <;> simp [Get, Search, Set, hfind]

/-- C10 witness: on the empty map Get of key 3 is nil, as it is after
storing nil under 3; Search distinguishes the two via its flag. -/
theorem claim10_get_search_witness :
    Get New (GoVal.int 3) = GoVal.nil ∧
    Get (Set New (GoVal.int 3) GoVal.nil) (GoVal.int 3) = GoVal.nil ∧
    Search New (GoVal.int 3) = (GoVal.nil, false) ∧
    Search (Set New (GoVal.int 3) GoVal.nil) (GoVal.int 3) = (GoVal.nil, true) :=
  ⟨(claim10_get_search New (GoVal.int 3)).1 rfl,
   ((claim10_get_search New (GoVal.int 3)).2.2.2 rfl).1,
   rfl,
   ((claim10_get_search New (GoVal.int 3)).2.2.2 rfl).2⟩

end Gmap
